import Mathlib

/-!
Verification of the prompter-live-go real-time pipeline.

Strings are modelled as `List Char` (Go strings, indexed by Unicode
codepoints / runes, as `utf8.RuneCountInString` and `[]rune` index them).
Each definition is a shallow embedding of the corresponding Go function,
with the source file and function named in its doc comment.
-/

namespace PrompterLive

/-! ## Character classes -/

/-- `unicode.IsSpace`, used by `strings.TrimSpace`: ASCII whitespace
(tab, newline, vertical tab, form feed, carriage return, space) plus the
Latin-1 and Unicode White_Space code points. -/
def goIsSpace (c : Char) : Bool :=
  c = '\t' ∨ c = '\n' ∨ c.toNat = 0x0b ∨ c.toNat = 0x0c ∨ c = '\r' ∨ c = ' ' ∨
  c.toNat = 0x85 ∨ c.toNat = 0xa0 ∨ c.toNat = 0x1680 ∨
  (0x2000 ≤ c.toNat ∧ c.toNat ≤ 0x200a) ∨
  c.toNat = 0x2028 ∨ c.toNat = 0x2029 ∨ c.toNat = 0x202f ∨
  c.toNat = 0x205f ∨ c.toNat = 0x3000

/-- `strings.TrimSpace`: drop leading and trailing whitespace. -/
def goTrimSpace (s : List Char) : List Char :=
  (s.dropWhile goIsSpace).rdropWhile goIsSpace

/-! ## Length cap (internal/pipeline, `part_000` and `part_001`)

`const youtubeMaxCommentLength = 500`, truncation suffix `"..."`.  The Go
sources hard-code the cap as this constant; `truncateToCap` takes it as
the parameter `cap` so that the spec's quantification over the cap can be
stated; the repository instantiates it with `youtubeMaxCommentLength`.
-/

/-- The constant `youtubeMaxCommentLength = 500` of `part_000`/`part_001`. -/
def youtubeMaxCommentLength : Nat := 500

/-- The truncation suffix `"..."` appended by `sanitizeMessage`. -/
def truncationSuffix : List Char := ['.', '.', '.']

/-- Final truncation step of `sanitizeMessage` (`src/unnamed/part_000`
lines 97-116, identical logic in `part_001` lines 131-144): if the message
has more than `cap` runes, slice `[]rune(message)[:cap]`, and - since
adding the 3-rune suffix would then exceed the cap - re-slice to `cap - 3`
runes and append `"..."`. -/
def truncateToCap (cap : Nat) (message : List Char) : List Char :=
  if message.length ≤ cap then message
  else
    let trimmedRunes := message.take cap
    let trimmedRunes' :=
      if trimmedRunes.length + truncationSuffix.length > cap then
        message.take (cap - truncationSuffix.length)
      else trimmedRunes
    trimmedRunes' ++ truncationSuffix

/-- `sanitizeMessage` of `src/unnamed/part_000` (lines 97-116): pure
truncation to the `youtubeMaxCommentLength` cap. -/
def sanitizeMessagePart000 (message : List Char) : List Char :=
  truncateToCap youtubeMaxCommentLength message

/-! ## Markdown-stripping sanitizer (`src/unnamed/part_001`, `sanitizeMessage`)

The function compiles its regexes with `regexp.MustCompile` in its own
body.  The first two patterns are valid RE2, and those passes are
embedded below as scanners with Go's leftmost-first match semantics.  The
third pattern is the strong-emphasis `ReplaceAllString` whose pattern
ends in the backreference `\1` - and Go's regexp engine is RE2, which
has no backreferences (a lone `\1` is an invalid escape), so that
`MustCompile` call panics.  `sanitizeMessage` therefore never returns a
value on any input; the overall function is modelled with `none` for the
panic.
-/

/-- The three-backtick fence opening/closing a code block. -/
def fence : List Char := ['`', '`', '`']

/-- Head match of the fenced-code-block pattern (three backticks, a run of
non-backticks, three backticks).  Returns the remainder after the match. -/
def matchCodeBlock (s : List Char) : Option (List Char) :=
  if s.take 3 = fence then
    let rest := s.drop 3
    let after := rest.drop (rest.takeWhile (fun c => ¬ c = '`')).length
    if after.take 3 = fence then some (after.drop 3) else none
  else none

theorem matchCodeBlock_length_lt {s rest : List Char}
    (h : matchCodeBlock s = some rest) : rest.length < s.length := by
  unfold matchCodeBlock at h
  split at h
  · next h3 =>
    simp only [] at h
    split at h
    · next =>
      simp only [Option.some.injEq] at h
      subst h
      have hs3 : 3 ≤ s.length := by
        have := congrArg List.length h3
        simp only [List.length_take, fence, List.length_cons, List.length_nil] at this
        omega
      have h1 : ((s.drop 3).drop
          ((s.drop 3).takeWhile (fun c => ¬ c = '`')).length).length ≤ s.length - 3 := by
        simp only [List.length_drop]
        omega
      simp only [List.length_drop]
      omega
    · exact absurd h (by simp)
  · exact absurd h (by simp)

/-- Pass 1 of `part_001:sanitizeMessage`: `reCodeBlock.ReplaceAllString(message, "")`
removes fenced code blocks entirely. -/
def removeCodeBlocks (s : List Char) : List Char :=
  match hm : matchCodeBlock s with
  | some rest => removeCodeBlocks rest
  | none =>
    match s with
    | [] => []
    | c :: cs => c :: removeCodeBlocks cs
termination_by s.length
decreasing_by
  · exact matchCodeBlock_length_lt hm
  · simp

/-- Head match of the inline-code pattern (backtick, nonempty run of
non-backticks, backtick).  Returns the inner text and the remainder. -/
def matchInlineCode (s : List Char) : Option (List Char × List Char) :=
  if s.take 1 = ['`'] then
    let rest := s.drop 1
    let body := rest.takeWhile (fun c => ¬ c = '`')
    if ¬ body = [] ∧ (rest.drop body.length).take 1 = ['`'] then
      some (body, (rest.drop body.length).drop 1)
    else none
  else none

theorem matchInlineCode_length_lt {s : List Char} {body rest : List Char}
    (h : matchInlineCode s = some (body, rest)) : rest.length < s.length := by
  unfold matchInlineCode at h
  split at h
  · next h1 =>
    simp only [] at h
    split at h
    · next =>
      simp only [Option.some.injEq, Prod.mk.injEq] at h
      have hs1 : 1 ≤ s.length := by
        have := congrArg List.length h1
        simp only [List.length_take, List.length_cons, List.length_nil] at this
        omega
      rcases h with ⟨-, h⟩
      subst h
      simp only [List.length_drop]
      omega
    · exact absurd h (by simp)
  · exact absurd h (by simp)

/-- Pass 2 of `part_001:sanitizeMessage`:
`reInlineCode.ReplaceAllString(message, "$1")` keeps the inner text of
inline code spans and drops the backticks. -/
def unwrapInlineCode (s : List Char) : List Char :=
  match hm : matchInlineCode s with
  | some (body, rest) => body ++ unwrapInlineCode rest
  | none =>
    match s with
    | [] => []
    | c :: cs => c :: unwrapInlineCode cs
termination_by s.length
decreasing_by
  · exact matchInlineCode_length_lt hm
  · simp

/-- `sanitizeMessage` of `src/unnamed/part_001` (lines 96-144).  Pass 1
(fenced-code-block removal, line 100) and pass 2 (inline-code unwrapping,
line 102) execute; the function then reaches line 106,
`reEmphasis := regexp.MustCompile` of the pattern `(\*\*|__)(.*?)\1`,
whose trailing `\1` RE2 rejects as an invalid escape (backreferences are
unsupported), so `MustCompile` panics and the function never returns.
`none` models the panic; the discarded binding is the text the two
completed passes produced before it. -/
def sanitizeMessagePart001 (message : List Char) : Option (List Char) :=
  let _m2 := unwrapInlineCode (removeCodeBlocks message)
  none

/-! ## Sanitizer of `src/internal/apis/youtube_client.go` (`sanitizeMessage`)

Pattern `(?s)` with three passes: remove fenced code blocks with a lazy
dot-all body, trim space, replace newlines by spaces. -/

/-- Find the earliest occurrence of a three-backtick fence; return the
remainder after it (the lazy body of the dot-all pattern may contain any
characters, including newlines and single backticks). -/
def findFence (s : List Char) : Option (List Char) :=
  match s with
  | [] => none
  | _ :: rest => if s.take 3 = fence then some (s.drop 3) else findFence rest

theorem findFence_length_lt {s r : List Char}
    (h : findFence s = some r) : r.length < s.length := by
  induction s with
  | nil => simp [findFence] at h
  | cons a rest ih =>
    unfold findFence at h
    split at h
    · next h3 =>
      have h3l : 2 ≤ rest.length := by
        have := congrArg List.length h3
        simp only [List.length_take, fence, List.length_cons, List.length_nil] at this
        omega
      simp only [Option.some.injEq] at h
      subst h
      simp only [List.length_drop, List.length_cons]
      omega
    · have := ih h
      simp only [List.length_cons]
      omega

/-- Head match of the dot-all code-block pattern of the apis sanitizer. -/
def matchCodeBlockDotall (s : List Char) : Option (List Char) :=
  if s.take 3 = fence then findFence (s.drop 3) else none

theorem matchCodeBlockDotall_length_lt {s rest : List Char}
    (h : matchCodeBlockDotall s = some rest) : rest.length < s.length := by
  unfold matchCodeBlockDotall at h
  split at h
  · next h3 =>
    have h3l : 3 ≤ s.length := by
      have := congrArg List.length h3
      simp only [List.length_take, fence, List.length_cons, List.length_nil] at this
      omega
    have := findFence_length_lt h
    simp only [List.length_drop] at this
    omega
  · exact absurd h (by simp)

/-- Pass 1 of `apis:sanitizeMessage`: `re.ReplaceAllString(message, "")`
with lazy dot-all code-block pattern. -/
def removeCodeBlocksDotall (s : List Char) : List Char :=
  match hm : matchCodeBlockDotall s with
  | some rest => removeCodeBlocksDotall rest
  | none =>
    match s with
    | [] => []
    | c :: cs => c :: removeCodeBlocksDotall cs
termination_by s.length
decreasing_by
  · exact matchCodeBlockDotall_length_lt hm
  · simp

/-- `sanitizeMessage` of `src/internal/apis/youtube_client.go`
(lines 196-208): remove code blocks, `strings.TrimSpace`, then
`strings.ReplaceAll(message, "\n", " ")`. -/
def sanitizeMessageApis (message : List Char) : List Char :=
  let m1 := removeCodeBlocksDotall message
  let m2 := goTrimSpace m1
  m2.map (fun c => if c = '\n' then ' ' else c)

/-! ## Sanitizer length-cap facts -/

/-- The truncation step returns at most `cap` runes, and on overflow it is
the `cap - 3` rune prefix with the suffix appended. -/
theorem truncateToCap_spec (cap : Nat) (m : List Char)
    (hcap : truncationSuffix.length ≤ cap) :
    (truncateToCap cap m).length ≤ cap ∧
      (cap < m.length →
        truncateToCap cap m =
          m.take (cap - truncationSuffix.length) ++ truncationSuffix) := by
  have hsuf : truncationSuffix.length = 3 := rfl
  rw [hsuf] at hcap
  unfold truncateToCap
  by_cases hle : m.length ≤ cap
  · rw [if_pos hle]
    exact ⟨hle, fun hlt => absurd hlt (by omega)⟩
  · rw [if_neg hle]
    simp only []
    rw [if_pos]
    · constructor
      · simp only [List.length_append, List.length_take, hsuf]
        omega
      · intro _; rfl
    · simp only [List.length_take, hsuf]
      omega

/-! ## Claim C3 and C9 theorems -/

/-- **C3** (code bug): the cap bound holds of the truncation-only
sanitizer of `part_000` - at most `youtubeMaxCommentLength = 500`
codepoints (second conjunct), and, with the hard-coded cap generalized to
a parameter, at most `cap` codepoints with the `cap - 3`-codepoint prefix
plus `"..."` on overflow (third conjunct).  But the other cited
sanitizer, `part_001:sanitizeMessage`, panics at the `reEmphasis`
`MustCompile` on every call - RE2 rejects the `\1` backreference - and
so never returns a string at all, evaluated here at a strong-emphasis
input (first conjunct). -/
theorem c3_sanitizer_code_bug :
    sanitizeMessagePart001 ("hi **team**".data) = none ∧
      (∀ m, (sanitizeMessagePart000 m).length ≤ youtubeMaxCommentLength) ∧
      (∀ cap m, truncationSuffix.length ≤ cap →
        (truncateToCap cap m).length ≤ cap ∧
        (cap < m.length →
          truncateToCap cap m =
            m.take (cap - truncationSuffix.length) ++ truncationSuffix)) := by
  refine ⟨rfl, ?_, fun cap m hcap => truncateToCap_spec cap m hcap⟩
  intro m
  exact (truncateToCap_spec youtubeMaxCommentLength m (by decide)).1

/-- **C9** (code bug): the only sanitizer the claim cites,
`part_001:sanitizeMessage`, never returns: it panics at the `reEmphasis`
`MustCompile` on every call - RE2 rejects the `\1` backreference -
evaluated here at a markup-free input of at most 500 codepoints, the very
inputs on which the claim asserts idempotence.  `Sanitize(x)` has no
value, so `Sanitize(Sanitize(x)) = Sanitize(x)` is not a property this
program has on any input. -/
theorem c9_sanitizer_never_returns :
    sanitizeMessagePart001 ("hello world.".data) = none ∧
      ("hello world.".data).length ≤ youtubeMaxCommentLength :=
  ⟨rfl, by decide⟩

/-! ## Gemini live session (`src/internal/gemini/live.go`)

The file contains two full rewrites of `geminiLiveSession`.  The first
(v1, lines 1-139) aggregates the provider stream inside the `Send`
goroutine and emits a single completed response on `responseChan`
(buffer 1), signalling `doneChan` (buffer 1) afterwards.  The second
(v2, lines 141-274) forwards each raw chunk over the unbuffered
`streamChan`; `RecvResponse` extracts the chunk text, accumulates it into
`currentText` and hands the chunk to the caller with `Done=false`,
returning a `Done=true` response once the stream is exhausted.
-/

/-- A part of a candidate's content (`genai.Part`): a text part or some
other modality. -/
inductive GenPart
  | text (s : String)
  | other
deriving DecidableEq

/-- The first candidate's content of a `genai.GenerateContentResponse`;
`none` models "no candidates, or nil content". -/
structure GenResponse where
  parts : Option (List GenPart)
deriving DecidableEq

/-- `types.LowLatencyResponse` (second variant in
`internal/types/liveconfig.go`): a streamed response chunk with the
completion flag. -/
structure LowLatencyResponse where
  ResponseText : String
  Done : Bool
deriving DecidableEq

/-- `types.LiveStreamData` (second variant in
`internal/types/liveconfig.go`): the user message submitted to the
session. -/
structure LiveStreamData where
  Text : String
  Timestamp : String
  Author : String
deriving DecidableEq

/-- Text extraction in the v1 `Send` goroutine (live.go lines 79-88): only
`Parts[0]` of the first candidate is considered, and only when it is a
text part. -/
def extractTextV1 (r : GenResponse) : String :=
  match r.parts with
  | some (GenPart.text t :: _) => t
  | some _ => ""
  | none => ""

/-- The `strings.Builder` accumulation of the v1 `Send` goroutine over the
stream chunks. -/
def accumulateV1 (items : List GenResponse) : String :=
  items.foldl (fun b r => b ++ extractTextV1 r) ""

/-- io.EOF, as carried on `doneChan`. -/
def ioEOF : String := "EOF"

/-- The responses the v1 `Send` goroutine writes to `responseChan`
(live.go lines 66-105), given the chunks delivered by the provider stream
before it terminated and the terminal condition (`none` for io.EOF,
`some e` for a mid-stream error).  On error exactly one Error response is
written; on EOF the code writes the accumulated full response when it is
nonempty, and otherwise a single empty `Done` response - in all three
paths exactly one response, with `Done = true`. -/
def sendEmissionsV1 (items : List GenResponse) (streamErr : Option String) :
    List LowLatencyResponse :=
  match streamErr with
  | some e => [{ ResponseText := "Error: " ++ e, Done := true }]
  | none =>
    let fullResponse := accumulateV1 items
    (if ¬ fullResponse = "" then [{ ResponseText := fullResponse, Done := true }] else []) ++
    (if fullResponse = "" then [{ ResponseText := "", Done := true }] else [])

/-- Channel state of a v1 session plus what the `Send` goroutine has not
yet written: `pendingResp`/`pendingDone` are its future writes (all
`responseChan` writes happen before the deferred `doneChan` write), and
`responseBuf`/`doneBuf` are the buffered channel contents (both channels
have buffer 1). -/
structure V1Sys where
  pendingResp : List LowLatencyResponse
  pendingDone : List String
  responseBuf : List LowLatencyResponse
  doneBuf : List String
deriving DecidableEq

/-- Outcome of one `RecvResponse` call: a Go `(response, error)` pair, or
blocked when no channel is ready. -/
inductive RecvOutcome
  | ret (resp : Option LowLatencyResponse) (err : Option String)
  | blocked
deriving DecidableEq

/-- `RecvResponse` of live.go v1 (lines 110-134): `select` over `doneChan`
and `responseChan`.  When both are ready Go chooses pseudo-randomly; the
Boolean `preferDone` resolves that choice.  The done branch drains a
buffered response if present (returning it with a nil error) and
otherwise returns a `Done` placeholder together with io.EOF; the response
branch returns the response with a nil error. -/
def v1Recv (sys : V1Sys) (preferDone : Bool) : RecvOutcome × V1Sys :=
  match sys.doneBuf, sys.responseBuf with
  | _ :: ds, r :: rs =>
    match preferDone with
    | true =>
      (RecvOutcome.ret (some r) none,
        { sys with doneBuf := ds, responseBuf := rs })
    | false =>
      (RecvOutcome.ret (some r) none, { sys with responseBuf := rs })
  | _ :: ds, [] =>
    (RecvOutcome.ret (some { ResponseText := "", Done := true }) (some ioEOF),
      { sys with doneBuf := ds })
  | [], r :: rs =>
    (RecvOutcome.ret (some r) none, { sys with responseBuf := rs })
  | [], [] => (RecvOutcome.blocked, sys)

/-- An interleaving step: the goroutine writes its next response, the
goroutine sends the deferred done signal (only once every response is
written), or the pipeline calls `RecvResponse`. -/
inductive V1Step
  | emit
  | signalDone
  | recv (preferDone : Bool)

/-- Small-step semantics of the v1 session: channel writes respect buffer
capacity 1 (a full buffer makes the goroutine wait, a no-op here), and
the deferred done write happens only after all responses are written. -/
def v1StepRun (sys : V1Sys) : V1Step → V1Sys × Option RecvOutcome
  | V1Step.emit =>
    match hr : sys.pendingResp, sys.responseBuf with
    | r :: rs, [] => ({ sys with pendingResp := rs, responseBuf := [r] }, none)
    | _, _ => (sys, none)
  | V1Step.signalDone =>
    match sys.pendingResp, sys.pendingDone, sys.doneBuf with
    | [], d :: ds, [] => ({ sys with pendingDone := ds, doneBuf := [d] }, none)
    | _, _, _ => (sys, none)
  | V1Step.recv b =>
    let (out, sys') := v1Recv sys b
    (sys', some out)

/-- Run a schedule of steps, collecting every `RecvResponse` outcome. -/
def v1Run (sys : V1Sys) : List V1Step → List RecvOutcome
  | [] => []
  | st :: sts =>
    let (sys', out) := v1StepRun sys st
    (match out with
     | some o => [o]
     | none => []) ++ v1Run sys' sts

/-- A call returns a terminal event when it delivers a response with a nil
error and `Done = true` (a `(resp, io.EOF)` return delivers no event - it
signals exhaustion, mirroring the Go error convention). -/
def isTerminalEventReturn : RecvOutcome → Bool
  | RecvOutcome.ret (some r) none => r.Done
  | _ => false

/-- Number of terminal events delivered across a sequence of
`RecvResponse` outcomes. -/
def terminalsDelivered (outs : List RecvOutcome) : Nat :=
  outs.countP isTerminalEventReturn

/-- Terminal events delivered never exceed the terminal responses still
pending or buffered: each no-error return pops one buffered response. -/
theorem v1Run_terminals_le (steps : List V1Step) (sys : V1Sys) :
    terminalsDelivered (v1Run sys steps) ≤
      (sys.pendingResp ++ sys.responseBuf).countP (fun r => r.Done) := by
  induction steps generalizing sys with
  | nil => simp [v1Run, terminalsDelivered]
  | cons st sts ih =>
    rcases st with - | - | b
    · rw [v1Run]
      unfold v1StepRun
      rcases hr : sys.pendingResp with - | ⟨r, rs⟩
      · simpa [hr] using le_trans (ih sys) (by simp [hr])
      · rcases hb : sys.responseBuf with - | ⟨q, qs⟩
        · simp only [hr, hb]
          refine le_trans (by simpa using ih _) ?_
          simp only [hr, hb, List.countP_append, List.countP_cons, List.countP_nil]
          omega
        · simpa [hr, hb] using le_trans (ih sys) (by simp [hr, hb])
    · rw [v1Run]
      unfold v1StepRun
      rcases hr : sys.pendingResp with - | ⟨r, rs⟩ <;>
        rcases hd : sys.pendingDone with - | ⟨d, ds⟩ <;>
          rcases hb : sys.doneBuf with - | ⟨q, qs⟩ <;>
            simpa [hr, hd, hb] using le_trans (ih _) (by simp [hr, hd, hb])
    · rw [v1Run]
      unfold v1StepRun
      simp only []
      unfold v1Recv
      rcases hd : sys.doneBuf with - | ⟨d, ds⟩ <;>
        rcases hb : sys.responseBuf with - | ⟨q, qs⟩
      · simp only [hd, hb, terminalsDelivered, List.countP_cons, List.countP_append]
        have := ih sys
        simp only [terminalsDelivered, List.countP_append, hb] at this ⊢
        simpa [isTerminalEventReturn] using this
      · simp only [hd, hb]
        have := ih { sys with responseBuf := qs, doneBuf := [] }
        simp only [terminalsDelivered, List.countP_append, List.countP_cons,
          List.countP_nil] at this ⊢
        have hiq : isTerminalEventReturn (RecvOutcome.ret (some q) none) = q.Done := rfl
        rw [hiq]
        omega
      · simp only [hd, hb, terminalsDelivered, List.countP_cons, List.countP_append]
        have := ih { sys with doneBuf := ds, responseBuf := [] }
        simp only [terminalsDelivered, List.countP_append, hb] at this ⊢
        simpa [isTerminalEventReturn] using this
      · cases b with
        | true =>
          simp only [hd, hb]
          have := ih { sys with doneBuf := ds, responseBuf := qs }
          simp only [terminalsDelivered, List.countP_append, List.countP_cons,
            List.countP_nil] at this ⊢
          have hiq : isTerminalEventReturn (RecvOutcome.ret (some q) none) = q.Done := rfl
          rw [hiq]
          omega
        | false =>
          simp only [hd, hb]
          have := ih { sys with responseBuf := qs, doneBuf := d :: ds }
          simp only [terminalsDelivered, List.countP_append, List.countP_cons,
            List.countP_nil] at this ⊢
          have hiq : isTerminalEventReturn (RecvOutcome.ret (some q) none) = q.Done := rfl
          rw [hiq]
          omega

/-- **C1**: for every exchange started by a single v1 `Send` call (the
provider stream delivering chunks `items` and terminating with
`streamErr`), the goroutine emits exactly one terminal response - a
response with `Done = true` - on `responseChan`; and from the freshly
started exchange (all emissions pending, the deferred done signal
pending, both channels empty) no interleaving of goroutine writes and
`RecvResponse` calls delivers more than one terminal event to the caller.
A `RecvResponse` return paired with the io.EOF error delivers no event
(it reports exhaustion, per the Go `(value, error)` convention). -/
theorem c1_exactly_one_terminal (items : List GenResponse)
    (streamErr : Option String) (steps : List V1Step) :
    (sendEmissionsV1 items streamErr).length = 1 ∧
      (∀ r ∈ sendEmissionsV1 items streamErr, r.Done = true) ∧
      terminalsDelivered
        (v1Run { pendingResp := sendEmissionsV1 items streamErr,
                 pendingDone := [ioEOF], responseBuf := [], doneBuf := [] } steps) ≤ 1 := by
  have hone : (sendEmissionsV1 items streamErr).length = 1 ∧
      ∀ r ∈ sendEmissionsV1 items streamErr, r.Done = true := by
    unfold sendEmissionsV1
    rcases streamErr with - | e
    · by_cases hf : accumulateV1 items = "" <;> simp [hf]
    · simp
  obtain ⟨h1, hAll⟩ := hone
  refine ⟨h1, hAll, ?_⟩
  rcases hl : sendEmissionsV1 items streamErr with - | ⟨r, rs⟩
  · rw [hl] at h1
    simp at h1
  · rw [hl] at h1
    simp only [List.length_cons] at h1
    have hrs : rs = [] := List.length_eq_zero.mp (by omega)
    subst hrs
    have hr : r.Done = true := hAll r (by rw [hl]; exact List.mem_cons_self _ _)
    have h2 := v1Run_terminals_le steps
      { pendingResp := [r], pendingDone := [ioEOF], responseBuf := [], doneBuf := [] }
    simpa [List.countP_cons, hr] using h2

/-! ## v2 streaming exchange (live.go lines 141-274) -/

/-- Text extraction in v2 `RecvResponse` (live.go lines 244-252): all text
parts of the first candidate's content are concatenated. -/
def extractTextV2 (r : GenResponse) : String :=
  match r.parts with
  | some ps =>
    ps.foldl
      (fun acc p =>
        match p with
        | GenPart.text t => acc ++ t
        | GenPart.other => acc) ""
  | none => ""

/-- State of a v2 exchange during streaming: the chunks the goroutine has
not yet forwarded on the unbuffered `streamChan` (in stream order) and
the session's accumulated `currentText`. -/
structure V2Exchange where
  pending : List GenResponse
  currentText : String
deriving DecidableEq

/-- One v2 `RecvResponse` call (live.go lines 231-268) on a successful
exchange.  While chunks remain, the stream branch fires (the done signal
is sent only after the last chunk has been consumed from the unbuffered
channel, so the order is deterministic): the chunk's text is extracted,
appended to `currentText`, and returned with `Done = false`.  After the
last chunk the done branch returns the `Done = true` response. -/
def v2Recv (st : V2Exchange) : LowLatencyResponse × V2Exchange :=
  match st.pending with
  | [] => ({ ResponseText := "", Done := true }, st)
  | r :: rest =>
    ({ ResponseText := extractTextV2 r, Done := false },
      { pending := rest, currentText := st.currentText ++ extractTextV2 r })

/-- The receive loop of the pipeline (`part_001:handleReceive`): call
`RecvResponse` until a `Done` response arrives, collecting every returned
response; also returns the exchange's final `currentText`. -/
def v2RecvAll : V2Exchange → List LowLatencyResponse × String
  | { pending := [], currentText := cur } =>
    ([{ ResponseText := "", Done := true }], cur)
  | { pending := r :: rest, currentText := cur } =>
    let out := v2RecvAll { pending := rest, currentText := cur ++ extractTextV2 r }
    ({ ResponseText := extractTextV2 r, Done := false } :: out.1, out.2)
termination_by st => st.pending.length

/-- The texts of the chunk (non-terminal) responses of an exchange, in
arrival order. -/
def chunkTexts (rs : List LowLatencyResponse) : List String :=
  (rs.filter (fun r => ¬ r.Done = true)).map (fun r => r.ResponseText)

/-- Concatenation of a list of strings, in order. -/
def concatTexts : List String → String
  | [] => ""
  | t :: ts => t ++ concatTexts ts

theorem v2RecvAll_concat (st : V2Exchange) :
    (v2RecvAll st).2 = st.currentText ++ concatTexts (chunkTexts (v2RecvAll st).1) := by
  rcases st with ⟨pending, cur⟩
  induction pending generalizing cur with
  | nil =>
    rw [v2RecvAll]
    simp [chunkTexts, concatTexts]
  | cons r rest ih =>
    rw [v2RecvAll]
    simp only []
    have hih := ih (cur ++ extractTextV2 r)
    simp only [] at hih
    rw [hih]
    have hck : chunkTexts ({ ResponseText := extractTextV2 r, Done := false } ::
        (v2RecvAll { pending := rest, currentText := cur ++ extractTextV2 r }).1) =
        extractTextV2 r ::
          chunkTexts (v2RecvAll { pending := rest, currentText := cur ++ extractTextV2 r }).1 := by
      simp [chunkTexts]
    rw [hck]
    simp only [concatTexts]
    rw [String.append_assoc]

/-- Every run of `v2RecvAll` ends with the terminal response. -/
theorem v2RecvAll_last (st : V2Exchange) :
    (v2RecvAll st).1.getLast? = some { ResponseText := "", Done := true } := by
  rcases st with ⟨pending, cur⟩
  induction pending generalizing cur with
  | nil =>
    rw [v2RecvAll]
    rfl
  | cons r rest ih =>
    rw [v2RecvAll]
    simp only []
    have h := ih (cur ++ extractTextV2 r)
    rcases hl : (v2RecvAll { pending := rest, currentText := cur ++ extractTextV2 r }).1 with
      - | ⟨x, xs⟩
    · rw [hl] at h; simp at h
    · rw [hl] at h
      rw [List.getLast?_cons_cons]
      exact h

/-- **C2**: for any successful AI exchange, the concatenation in arrival
order of the chunk texts equals the full accumulated text of the
exchange.  First conjunct (v1, aggregated design): the single completion
response emitted by `Send` carries exactly the concatenation of the text
extracted from each provider chunk.  Remaining conjuncts (v2, chunked
design): the concatenation of the `Chunk.text` of every response
delivered by `RecvResponse` equals the session's accumulated
`currentText` at completion, and the exchange ends with the single
`Done = true` completion response. -/
theorem c2_chunk_concat_eq_full (items : List GenResponse) :
    sendEmissionsV1 items none =
        [{ ResponseText := accumulateV1 items, Done := true }] ∧
      concatTexts (chunkTexts (v2RecvAll { pending := items, currentText := "" }).1) =
        (v2RecvAll { pending := items, currentText := "" }).2 ∧
      (v2RecvAll { pending := items, currentText := "" }).1.getLast? =
        some { ResponseText := "", Done := true } := by
  refine ⟨?_, ?_, v2RecvAll_last _⟩
  · unfold sendEmissionsV1
    by_cases hf : accumulateV1 items = "" <;> simp [hf]
  · rw [v2RecvAll_concat]
    simp

/-! ## Send has no busy-guard (claim C7) -/

/-- `Send` of live.go v1 (lines 50-108): lock the mutex, build the user
input, start the stream goroutine (whose future channel writes for this
exchange are the emissions plus the deferred done signal), and return.
The function body contains a single `return nil` and no inspection of
session state whatsoever. -/
def v1Send (sys : V1Sys) (data : LiveStreamData) (items : List GenResponse)
    (streamErr : Option String) : V1Sys × Option String :=
  ({ sys with
      pendingResp := sys.pendingResp ++ sendEmissionsV1 items streamErr,
      pendingDone := sys.pendingDone ++ [ioEOF] }, none)

/-- `Send` of live.go v2 (lines 183-229): if a previous stream channel
exists it is signalled done (non-blocking) and closed, a fresh channel is
created and `currentText` reset, the goroutine is started, and the
function returns `nil` - again without any state check or error path. -/
def v2Send (prev : Option V2Exchange) (data : LiveStreamData)
    (items : List GenResponse) : V2Exchange × Option String :=
  ({ pending := items, currentText := "" }, none)

/-- A v1 session is mid-exchange - not `Idle` in the spec's state-machine
sense - when a previously started exchange still has responses or done
signals pending or buffered. -/
def v1Busy (sys : V1Sys) : Bool :=
  ¬ sys.pendingResp = [] ∨ ¬ sys.pendingDone = [] ∨
    ¬ sys.responseBuf = [] ∨ ¬ sys.doneBuf = []

/-- A v1 session in the middle of an exchange: the previous `Send`
produced a completion response that has not yet been received. -/
def v1BusyExample : V1Sys :=
  { pendingResp := [{ ResponseText := "hi", Done := true }],
    pendingDone := [ioEOF], responseBuf := [], doneBuf := [] }

/-- **C7 counterexample**: calling `Send` while the session is not idle
does NOT return an error: on the concrete mid-exchange state
`v1BusyExample` (and likewise on a v2 session whose previous exchange is
still open) `Send` returns nil and simply starts an overlapping
exchange. -/
theorem c7_counterexample_send_no_guard :
    v1Busy v1BusyExample = true ∧
      (v1Send v1BusyExample { Text := "next", Timestamp := "", Author := "" } [] none).2 =
        none ∧
      (v2Send (some { pending := [], currentText := "prev" })
          { Text := "next", Timestamp := "", Author := "" } []).2 = none := by
  refine ⟨by decide, rfl, rfl⟩

/-- **C7 amended**: `Send` never returns an error, in any session state:
neither rewrite of `geminiLiveSession.Send` guards against overlapping
exchanges (the v1 version unconditionally spawns a second goroutine over
the same channels; the v2 version tears down the previous stream and
resets `currentText` before starting the new exchange). -/
theorem c7_amended_send_always_nil (sys : V1Sys) (data : LiveStreamData)
    (items : List GenResponse) (streamErr : Option String)
    (prev : Option V2Exchange) :
    (v1Send sys data items streamErr).2 = none ∧
      (v2Send prev data items).2 = none :=
  ⟨rfl, rfl⟩

/-! ## YouTube live chat client (`src/unnamed/part_006`)

Time instants and durations are in nanoseconds, as Go's `time.Duration`
arithmetic is.  The Go map `lastFetchedCommentIDs` is modelled as a
function `String → Option Nat` (lookup); insertion and the range-delete
of the garbage collector are pointwise updates, exactly the Go map
semantics. -/

/-- `commentIDRetentionDuration = 1 * time.Hour` in nanoseconds. -/
def commentIDRetentionDuration : Nat := 3600000000000

/-- The distinguished `ErrLiveChatEnded` versus an ordinary error
message. -/
inductive FetchErr
  | liveChatEnded
  | other (msg : String)
deriving DecidableEq

/-- One item of a `LiveChatMessages.List` response: `item.Id`,
`item.Snippet.DisplayMessage`, `item.AuthorDetails` and the parsed
`item.Snippet.PublishedAt` instant. -/
structure APIItem where
  id : String
  displayMessage : String
  authorChannelId : String
  authorDisplayName : String
  publishedAt : Nat
deriving DecidableEq

/-- Result of the underlying `LiveChatMessages.List` call: the items, the
next page token and `PollingIntervalMillis`; or an error message. -/
inductive APIResult
  | success (items : List APIItem) (nextPageToken : String)
      (pollingIntervalMillis : Nat)
  | apiError (msg : String)
deriving DecidableEq

/-- `youtube.Comment` of `part_006`. -/
structure Comment where
  ID : String
  AuthorID : String
  Author : String
  Message : String
  Timestamp : Nat
deriving DecidableEq

/-- The Go map `map[string]time.Time` of recorded comment IDs. -/
def IDMap : Type := String → Option Nat

/-- Map insertion `m[k] = t`. -/
def idInsert (m : IDMap) (k : String) (t : Nat) : IDMap :=
  fun x => if x = k then some t else m x

/-- The mutable fields of `youtube.Client` (part_006 lines 117-126). -/
structure ClientState where
  liveChatID : String
  nextPageToken : String
  lastFetchedCommentIDs : IDMap

/-- `strings.Contains(haystack, needle)`. -/
def goContains (haystack needle : String) : Bool :=
  decide (needle.data <:+: haystack.data)

/-- The item loop of `FetchLiveChatMessages` (part_006 lines 240-268):
an item whose ID is already recorded is skipped (4.1); an item with an
empty `DisplayMessage` is skipped before any comment is built or its ID
recorded (4.2); otherwise the comment is built and appended (4.3) and its
ID recorded with the current instant (4.4). -/
def processItems (m : IDMap) (now : Nat) :
    List APIItem → List Comment × IDMap
  | [] => ([], m)
  | item :: rest =>
    if (m item.id).isSome then processItems m now rest
    else if item.displayMessage = "" then processItems m now rest
    else
      let c : Comment :=
        { ID := item.id, AuthorID := item.authorChannelId,
          Author := item.authorDisplayName, Message := item.displayMessage,
          Timestamp := item.publishedAt }
      let out := processItems (idInsert m item.id now) now rest
      (c :: out.1, out.2)

/-- `cleanOldCommentIDs` (part_006 lines 276-294): delete every entry
whose recorded instant is before `now` minus the retention period. -/
def cleanOldCommentIDs (m : IDMap) (now : Nat) : IDMap :=
  fun x =>
    match m x with
    | some t => if t < now - commentIDRetentionDuration then none else some t
    | none => none

/-- `FetchLiveChatMessages` (part_006 lines 205-274).  `resolve` stands
for the `findLiveChatID` call made when no live chat ID is held, and
`api` for the `LiveChatMessages.List` call.  On a `liveChatEnded` /
`live chat is inactive` API error the live chat ID and the page token are
cleared and the distinguished `ErrLiveChatEnded` is returned un-wrapped;
other API errors are wrapped as a generic failure; on success the page
token is updated, items are deduplicated and filtered, new IDs recorded
and old ones garbage-collected, and the API's suggested polling interval
(milliseconds converted to a duration) is returned. -/
def fetchLiveChatMessages (st : ClientState) (resolve : Except String String)
    (api : APIResult) (now : Nat) :
    ClientState × Except FetchErr (List Comment × Nat) :=
  let step1 : Except String ClientState :=
    if st.liveChatID = "" then
      match resolve with
      | Except.error e => Except.error e
      | Except.ok id => Except.ok { st with liveChatID := id }
    else Except.ok st
  match step1 with
  | Except.error e => (st, Except.error (FetchErr.other e))
  | Except.ok st1 =>
    match api with
    | APIResult.apiError msg =>
      if goContains msg "liveChatEnded" ∨ goContains msg "live chat is inactive" then
        ({ st1 with liveChatID := "", nextPageToken := "" },
          Except.error FetchErr.liveChatEnded)
      else
        (st1, Except.error (FetchErr.other ("failed to fetch live chat messages: " ++ msg)))
    | APIResult.success items tok millis =>
      let st2 := { st1 with nextPageToken := tok }
      let out := processItems st2.lastFetchedCommentIDs now items
      ({ st2 with lastFetchedCommentIDs := cleanOldCommentIDs out.2 now },
        Except.ok (out.1, millis * 1000000))

/-- `30 * time.Second`, the fixed rediscovery wait of
`LowLatencyPipeline.runLoop`. -/
def rediscoveryWait : Nat := 30000000000

/-- Error- and interval-handling of one `runLoop` iteration
(`src/internal/pipeline/lowlatency.go` lines 88-113): on
`ErrLiveChatEnded` the next poll is scheduled after the fixed 30s
rediscovery wait and the loop continues; on any other fetch error the
current delay is kept and the loop continues; on success the suggested
interval is adopted when positive.  The Boolean records that the loop
keeps running (it exits only on context cancellation). -/
def runLoopStep (current : Nat) (res : Except FetchErr (List Comment × Nat)) :
    Nat × Bool :=
  match res with
  | Except.error FetchErr.liveChatEnded => (rediscoveryWait, true)
  | Except.error (FetchErr.other _) => (current, true)
  | Except.ok (_, interval) => ((if 0 < interval then interval else current), true)

/-- `runLoopStep` iterated over a sequence of fetch results: the loop
body never breaks, so the fold stops early only if a step ever reported
the loop stopped - which none does. -/
def runLoopFold : Nat → List (Except FetchErr (List Comment × Nat)) → Nat × Bool
  | delay, [] => (delay, true)
  | delay, r :: rs =>
    let step := runLoopStep delay r
    if step.2 then runLoopFold step.1 rs else step

/-- One orchestrator poll: the call instant and the collaborator
responses for that call. -/
structure PollInput where
  now : Nat
  resolve : Except String String
  api : APIResult

/-- The comments delivered by one fetch result (none when it errs). -/
def deliveredOf (res : Except FetchErr (List Comment × Nat)) : List Comment :=
  match res with
  | Except.ok (cs, _) => cs
  | Except.error _ => []

/-- Run a sequence of `FetchLiveChatMessages` calls against the evolving
client state, recording each call's instant and delivered comments. -/
def runPolls (st : ClientState) : List PollInput → List (Nat × List Comment)
  | [] => []
  | p :: ps =>
    let out := fetchLiveChatMessages st p.resolve p.api p.now
    (p.now, deliveredOf out.2) :: runPolls out.1 ps

/-! ## Deduplication facts -/

theorem processItems_skip {m : IDMap} {now : Nat} {items : List APIItem} {c : Comment}
    (hc : c ∈ (processItems m now items).1) : m c.ID = none := by
  induction items generalizing m with
  | nil => simp [processItems] at hc
  | cons item rest ih =>
    rw [processItems] at hc
    by_cases h1 : (m item.id).isSome = true
    · rw [if_pos h1] at hc
      exact ih hc
    · rw [if_neg h1] at hc
      by_cases h2 : item.displayMessage = ""
      · rw [if_pos h2] at hc
        exact ih hc
      · rw [if_neg h2] at hc
        simp only [List.mem_cons] at hc
        rcases hc with hc | hc
        · subst hc
          simpa using h1
        · have hrec := ih hc
          unfold idInsert at hrec
          by_cases hcid : c.ID = item.id
          · rw [if_pos hcid] at hrec
            exact absurd hrec (by simp)
          · rwa [if_neg hcid] at hrec

theorem processItems_preserve {m : IDMap} {now : Nat} {items : List APIItem}
    {id : String} {t : Nat} (h : m id = some t) :
    (processItems m now items).2 id = some t := by
  induction items generalizing m with
  | nil => simpa [processItems] using h
  | cons item rest ih =>
    rw [processItems]
    by_cases h1 : (m item.id).isSome = true
    · rw [if_pos h1]
      exact ih h
    · rw [if_neg h1]
      by_cases h2 : item.displayMessage = ""
      · rw [if_pos h2]
        exact ih h
      · rw [if_neg h2]
        simp only []
        apply ih
        unfold idInsert
        have hne : ¬ id = item.id := by
          intro he
          rw [← he, h] at h1
          exact h1 rfl
        rw [if_neg hne]
        exact h

theorem processItems_delivered {m : IDMap} {now : Nat} {items : List APIItem}
    {c : Comment} (hc : c ∈ (processItems m now items).1) :
    (processItems m now items).2 c.ID = some now := by
  induction items generalizing m with
  | nil => simp [processItems] at hc
  | cons item rest ih =>
    rw [processItems] at hc ⊢
    by_cases h1 : (m item.id).isSome = true
    · rw [if_pos h1] at hc ⊢
      exact ih hc
    · rw [if_neg h1] at hc ⊢
      by_cases h2 : item.displayMessage = ""
      · rw [if_pos h2] at hc ⊢
        exact ih hc
      · rw [if_neg h2] at hc ⊢
        simp only [List.mem_cons] at hc
        simp only []
        rcases hc with hc | hc
        · subst hc
          apply processItems_preserve
          simp [idInsert]
        · exact ih hc

theorem processItems_nodup {m : IDMap} {now : Nat} {items : List APIItem} :
    ((processItems m now items).1.map (fun c => c.ID)).Nodup := by
  induction items generalizing m with
  | nil => simp [processItems]
  | cons item rest ih =>
    rw [processItems]
    by_cases h1 : (m item.id).isSome = true
    · rw [if_pos h1]; exact ih
    · rw [if_neg h1]
      by_cases h2 : item.displayMessage = ""
      · rw [if_pos h2]; exact ih
      · rw [if_neg h2]
        simp only [List.map_cons, List.nodup_cons]
        refine ⟨?_, ih⟩
        intro hmem
        simp only [List.mem_map] at hmem
        obtain ⟨c, hc, hcid⟩ := hmem
        have := processItems_skip hc
        rw [hcid] at this
        simp [idInsert] at this

theorem processItems_only_adds {m : IDMap} {now : Nat} {items : List APIItem}
    {id : String} (h : ¬ (processItems m now items).2 id = none) :
    ¬ m id = none ∨ id ∈ (processItems m now items).1.map (fun c => c.ID) := by
  induction items generalizing m with
  | nil =>
    rw [processItems] at h
    exact Or.inl h
  | cons item rest ih =>
    rw [processItems] at h ⊢
    by_cases h1 : (m item.id).isSome = true
    · rw [if_pos h1] at h ⊢
      exact ih h
    · rw [if_neg h1] at h ⊢
      by_cases h2 : item.displayMessage = ""
      · rw [if_pos h2] at h ⊢
        exact ih h
      · rw [if_neg h2] at h ⊢
        simp only [] at h ⊢
        rcases ih h with hin | hin
        · by_cases hcid : id = item.id
          · subst hcid
            simp
          · unfold idInsert at hin
            rw [if_neg hcid] at hin
            exact Or.inl hin
        · simp only [List.map_cons, List.mem_cons]
          exact Or.inr (Or.inr hin)

theorem processItems_nonempty_message {m : IDMap} {now : Nat}
    {items : List APIItem} {c : Comment}
    (hc : c ∈ (processItems m now items).1) : ¬ c.Message = "" := by
  induction items generalizing m with
  | nil => simp [processItems] at hc
  | cons item rest ih =>
    rw [processItems] at hc
    by_cases h1 : (m item.id).isSome = true
    · rw [if_pos h1] at hc
      exact ih hc
    · rw [if_neg h1] at hc
      by_cases h2 : item.displayMessage = ""
      · rw [if_pos h2] at hc
        exact ih hc
      · rw [if_neg h2] at hc
        simp only [List.mem_cons] at hc
        rcases hc with hc | hc
        · subst hc
          exact h2
        · exact ih hc

/-- Case shape of one fetch: either nothing is delivered and the ID map
is untouched (resolution failure or API error), or the call succeeded and
delivery plus ID-map update follow the dedup-filter-record-GC pipeline. -/
theorem fetch_shape (st : ClientState) (resolve : Except String String)
    (api : APIResult) (now : Nat) :
    (deliveredOf (fetchLiveChatMessages st resolve api now).2 = [] ∧
        (fetchLiveChatMessages st resolve api now).1.lastFetchedCommentIDs =
          st.lastFetchedCommentIDs) ∨
      (∃ items tok millis, api = APIResult.success items tok millis ∧
        deliveredOf (fetchLiveChatMessages st resolve api now).2 =
          (processItems st.lastFetchedCommentIDs now items).1 ∧
        (fetchLiveChatMessages st resolve api now).1.lastFetchedCommentIDs =
          cleanOldCommentIDs (processItems st.lastFetchedCommentIDs now items).2 now) := by
  unfold fetchLiveChatMessages
  by_cases hid : st.liveChatID = ""
  · rcases resolve with e | lid
    · rw [if_pos hid]
      exact Or.inl ⟨rfl, rfl⟩
    · rw [if_pos hid]
      rcases api with ⟨items, tok, millis⟩ | ⟨msg⟩
      · exact Or.inr ⟨items, tok, millis, rfl, rfl, rfl⟩
      · dsimp only
        by_cases hend : goContains msg "liveChatEnded" = true ∨
            goContains msg "live chat is inactive" = true
        · rw [if_pos hend]
          exact Or.inl ⟨rfl, rfl⟩
        · rw [if_neg hend]
          exact Or.inl ⟨rfl, rfl⟩
  · rw [if_neg hid]
    rcases api with ⟨items, tok, millis⟩ | ⟨msg⟩
    · exact Or.inr ⟨items, tok, millis, rfl, rfl, rfl⟩
    · dsimp only
      by_cases hend : goContains msg "liveChatEnded" = true ∨
          goContains msg "live chat is inactive" = true
      · rw [if_pos hend]
        exact Or.inl ⟨rfl, rfl⟩
      · rw [if_neg hend]
        exact Or.inl ⟨rfl, rfl⟩

/-- A comment is delivered only when its ID was not recorded. -/
theorem fetch_delivered_not_recorded {st : ClientState}
    {resolve : Except String String} {api : APIResult} {now : Nat} {c : Comment}
    (hc : c ∈ deliveredOf (fetchLiveChatMessages st resolve api now).2) :
    st.lastFetchedCommentIDs c.ID = none := by
  rcases fetch_shape st resolve api now with ⟨hdel, -⟩ | ⟨items, tok, millis, -, hdel, -⟩
  · rw [hdel] at hc
    simp at hc
  · rw [hdel] at hc
    exact processItems_skip hc

/-- A recorded ID survives a fetch unless it has aged out of the
retention window at that fetch's instant. -/
theorem fetch_ids_preserve {st : ClientState} {resolve : Except String String}
    {api : APIResult} {now : Nat} {id : String} {t1 : Nat}
    (h : st.lastFetchedCommentIDs id = some t1) :
    (fetchLiveChatMessages st resolve api now).1.lastFetchedCommentIDs id = some t1 ∨
      t1 < now - commentIDRetentionDuration := by
  rcases fetch_shape st resolve api now with ⟨-, hids⟩ | ⟨items, tok, millis, -, -, hids⟩
  · left
    rw [hids]
    exact h
  · by_cases hgc : t1 < now - commentIDRetentionDuration
    · exact Or.inr hgc
    · left
      rw [hids]
      unfold cleanOldCommentIDs
      rw [processItems_preserve h]
      simp [hgc]

/-- A delivered comment's ID is recorded with the fetch's instant in the
new client state (the garbage collector never removes an entry recorded
at the current instant). -/
theorem fetch_record {st : ClientState} {resolve : Except String String}
    {api : APIResult} {now : Nat} {c : Comment}
    (hc : c ∈ deliveredOf (fetchLiveChatMessages st resolve api now).2) :
    (fetchLiveChatMessages st resolve api now).1.lastFetchedCommentIDs c.ID =
      some now := by
  rcases fetch_shape st resolve api now with ⟨hdel, -⟩ | ⟨items, tok, millis, -, hdel, hids⟩
  · rw [hdel] at hc
    simp at hc
  · rw [hdel] at hc
    rw [hids]
    unfold cleanOldCommentIDs
    rw [processItems_delivered hc]
    have hlt : ¬ now < now - commentIDRetentionDuration := by omega
    simp [hlt]

/-- The delivered IDs of a single fetch are pairwise distinct. -/
theorem fetch_nodup (st : ClientState) (resolve : Except String String)
    (api : APIResult) (now : Nat) :
    ((deliveredOf (fetchLiveChatMessages st resolve api now).2).map
      (fun c => c.ID)).Nodup := by
  rcases fetch_shape st resolve api now with ⟨hdel, -⟩ | ⟨items, tok, millis, -, hdel, -⟩
  · rw [hdel]
    simp
  · rw [hdel]
    exact processItems_nodup

/-- The instants of the recorded polls are the input instants. -/
theorem runPolls_times (inputs : List PollInput) (st : ClientState) :
    (runPolls st inputs).map (fun pr => pr.1) = inputs.map (fun p => p.now) := by
  induction inputs generalizing st with
  | nil => rfl
  | cons p ps ih =>
    rw [runPolls]
    simp [ih]

/-- Core of C6: once an ID is recorded at instant `t1`, no later poll of
a time-monotone sequence delivers a comment with that ID unless its
instant exceeds `t1` plus the retention period. -/
theorem runPolls_no_redelivery (inputs : List PollInput) (st : ClientState)
    (id : String) (t1 : Nat)
    (hmem : st.lastFetchedCommentIDs id = some t1)
    (hpw : (inputs.map (fun p => p.now)).Pairwise (fun a b => a ≤ b)) :
    ∀ pr ∈ runPolls st inputs, ∀ c ∈ pr.2, c.ID = id →
      t1 + commentIDRetentionDuration < pr.1 := by
  induction inputs generalizing st with
  | nil =>
    intro pr hpr
    simp [runPolls] at hpr
  | cons p ps ih =>
    intro pr hpr c hc hcid
    rw [List.map_cons] at hpw
    have hpw' := List.pairwise_cons.mp hpw
    rw [runPolls] at hpr
    simp only [List.mem_cons] at hpr
    rcases hpr with hpr | hpr
    · exfalso
      subst hpr
      have hnone := fetch_delivered_not_recorded hc
      rw [hcid, hmem] at hnone
      exact absurd hnone (by simp)
    · rcases @fetch_ids_preserve st p.resolve p.api p.now id t1 hmem with hkeep | hgc
      · exact ih _ hkeep hpw'.2 pr hpr c hc hcid
      · have ht : pr.1 ∈ (runPolls (fetchLiveChatMessages st p.resolve p.api p.now).1
            ps).map (fun q => q.1) := List.mem_map_of_mem _ hpr
        rw [runPolls_times] at ht
        simp only [List.mem_map] at ht
        obtain ⟨q, hq, hqe⟩ := ht
        have hle : p.now ≤ pr.1 := by
          rw [← hqe]
          exact hpw'.1 q.now (List.mem_map_of_mem _ hq)
        omega

/-- Helper for C6: delivered comments at two positions of the poll trace
with equal IDs are separated by more than the retention period. -/
theorem runPolls_split_no_dup (inputs : List PollInput) :
    ∀ (st0 : ClientState) (o1 o2 o3 : List (Nat × List Comment)) (t1 t2 : Nat)
      (cs1 cs2 : List Comment) (c1 c2 : Comment),
      (inputs.map (fun p => p.now)).Pairwise (fun a b => a ≤ b) →
      runPolls st0 inputs = o1 ++ (t1, cs1) :: o2 ++ (t2, cs2) :: o3 →
      c1 ∈ cs1 → c2 ∈ cs2 → c1.ID = c2.ID →
      t1 + commentIDRetentionDuration < t2 := by
  induction inputs with
  | nil =>
    intro st0 o1 o2 o3 t1 t2 cs1 cs2 c1 c2 hpw hsplit hc1 hc2 hid
    rw [runPolls] at hsplit
    exact absurd hsplit (by simp)
  | cons p ps ih =>
    intro st0 o1 o2 o3 t1 t2 cs1 cs2 c1 c2 hpw hsplit hc1 hc2 hid
    rw [List.map_cons] at hpw
    have hpw' := List.pairwise_cons.mp hpw
    rw [runPolls] at hsplit
    rcases o1 with - | ⟨q, o1'⟩
    · rw [List.nil_append] at hsplit
      injection hsplit with h1 h2
      have ht1 : p.now = t1 := congrArg Prod.fst h1
      have hcs1 : deliveredOf (fetchLiveChatMessages st0 p.resolve p.api p.now).2 = cs1 :=
        congrArg Prod.snd h1
      rw [← hcs1] at hc1
      have hrec := fetch_record hc1
      have htr := runPolls_no_redelivery ps _ c1.ID p.now hrec hpw'.2
      have hmem2 : (t2, cs2) ∈
          runPolls (fetchLiveChatMessages st0 p.resolve p.api p.now).1 ps := by
        rw [h2]
        simp
      have hfin := htr (t2, cs2) hmem2 c2 hc2 hid.symm
      omega
    · rw [List.cons_append] at hsplit
      injection hsplit with h1 h2
      exact ih _ o1' o2 o3 t1 t2 cs1 cs2 c1 c2 hpw'.2 h2 hc1 hc2 hid

/-- Helper for C6: within one poll the delivered IDs are distinct. -/
theorem runPolls_each_nodup (inputs : List PollInput) (st : ClientState) :
    ∀ pr ∈ runPolls st inputs, (pr.2.map (fun c => c.ID)).Nodup := by
  induction inputs generalizing st with
  | nil =>
    intro pr hpr
    simp [runPolls] at hpr
  | cons p ps ih =>
    intro pr hpr
    rw [runPolls] at hpr
    simp only [List.mem_cons] at hpr
    rcases hpr with hpr | hpr
    · subst hpr
      exact fetch_nodup st p.resolve p.api p.now
    · exact ih _ pr hpr

/-- **C6**: across every sequence of `FetchLiveChatMessages` calls with
nondecreasing call instants, the poller never returns two comments with
the same ID within the retention window: whenever a comment ID is
delivered at instant `t1` and again at a later position at instant `t2`,
then `t2` exceeds `t1` by more than the one-hour retention period; and a
single poll never delivers two comments with the same ID.  (The code
guarantees this without any assumption on the source: every delivered ID
is recorded, recorded IDs are filtered out, and a record is only
garbage-collected once it is older than the retention window.) -/
theorem c6_no_duplicate_within_retention
    (st0 : ClientState) (inputs : List PollInput)
    (o1 o2 o3 : List (Nat × List Comment)) (t1 t2 : Nat)
    (cs1 cs2 : List Comment) (c1 c2 : Comment)
    (hpw : (inputs.map (fun p => p.now)).Pairwise (fun a b => a ≤ b))
    (hsplit : runPolls st0 inputs = o1 ++ (t1, cs1) :: o2 ++ (t2, cs2) :: o3)
    (hc1 : c1 ∈ cs1) (hc2 : c2 ∈ cs2) (hid : c1.ID = c2.ID) :
    t1 + commentIDRetentionDuration < t2 ∧
      ∀ pr ∈ runPolls st0 inputs, (pr.2.map (fun c => c.ID)).Nodup :=
  ⟨runPolls_split_no_dup inputs st0 o1 o2 o3 t1 t2 cs1 cs2 c1 c2 hpw hsplit hc1 hc2 hid,
    runPolls_each_nodup inputs st0⟩

/-- **C5**: when the listing call reports that the live chat has ended
(its error message carries the `liveChatEnded` / `live chat is inactive`
marker), `FetchLiveChatMessages` clears the live chat ID and the page
token and returns the distinguished `ErrLiveChatEnded` value itself (not
a wrapped generic failure, which would be `FetchErr.other`); on that
error the orchestrator's `runLoop` schedules the next poll after the
fixed 30-second rediscovery wait instead of the steady-state interval and
keeps running. -/
theorem c5_live_chat_ended (st : ClientState) (resolve : Except String String)
    (m : String) (now cur : Nat) (hid : ¬ st.liveChatID = "")
    (hm : goContains m "liveChatEnded" = true ∨
      goContains m "live chat is inactive" = true) :
    (fetchLiveChatMessages st resolve (APIResult.apiError m) now).1.liveChatID = "" ∧
      (fetchLiveChatMessages st resolve (APIResult.apiError m) now).1.nextPageToken = "" ∧
      (fetchLiveChatMessages st resolve (APIResult.apiError m) now).2 =
        Except.error FetchErr.liveChatEnded ∧
      runLoopStep cur (fetchLiveChatMessages st resolve (APIResult.apiError m) now).2 =
        (rediscoveryWait, true) := by
  unfold fetchLiveChatMessages
  rw [if_neg hid]
  dsimp only
  rw [if_pos hm]
  exact ⟨rfl, rfl, rfl, rfl⟩

/-- **C10**: `FetchLiveChatMessages` never delivers a comment whose
message text is empty: items with an empty display message are skipped
before the comment is built or its ID recorded, so every delivered
comment has nonempty text, and every ID recorded by the call (beyond
those already recorded) is the ID of a delivered comment - in
particular, no empty-message item's ID ever enters the deduplication
map. -/
theorem c10_empty_messages_never_delivered (st : ClientState)
    (resolve : Except String String) (api : APIResult) (now : Nat) :
    (∀ c ∈ deliveredOf (fetchLiveChatMessages st resolve api now).2,
        ¬ c.Message = "") ∧
      (∀ id,
        ¬ (fetchLiveChatMessages st resolve api now).1.lastFetchedCommentIDs id = none →
        ¬ st.lastFetchedCommentIDs id = none ∨
          id ∈ (deliveredOf (fetchLiveChatMessages st resolve api now).2).map
            (fun c => c.ID)) := by
  rcases fetch_shape st resolve api now with ⟨hdel, hids⟩ | ⟨items, tok, millis, -, hdel, hids⟩
  · constructor
    · intro c hc
      rw [hdel] at hc
      simp at hc
    · intro id hrec
      rw [hids] at hrec
      exact Or.inl hrec
  · constructor
    · intro c hc
      rw [hdel] at hc
      exact processItems_nonempty_message hc
    · intro id hrec
      rw [hids] at hrec
      have hproc : ¬ (processItems st.lastFetchedCommentIDs now items).2 id = none := by
        intro hnone
        unfold cleanOldCommentIDs at hrec
        rw [hnone] at hrec
        exact hrec rfl
      rw [hdel]
      exact processItems_only_adds hproc

/-- Concrete inputs for the C5, C6 and C10 witnesses. -/
def freshClient : ClientState :=
  { liveChatID := "lc", nextPageToken := "", lastFetchedCommentIDs := fun _ => none }

/-- A live chat item as returned by the API. -/
def sampleItem : APIItem :=
  { id := "a", displayMessage := "hello", authorChannelId := "ch",
    authorDisplayName := "alice", publishedAt := 0 }

/-- An API item with an empty display message. -/
def emptyItem : APIItem :=
  { id := "e", displayMessage := "", authorChannelId := "ch",
    authorDisplayName := "bob", publishedAt := 0 }

/-- The comment built from `sampleItem`. -/
def sampleComment : Comment :=
  { ID := "a", AuthorID := "ch", Author := "alice", Message := "hello",
    Timestamp := 0 }

/-- Three polls: the sample item at instant 0, an empty poll just past
the retention horizon (whose garbage collection drops the record), and
the same item again one nanosecond later. -/
def samplePolls : List PollInput :=
  [ { now := 0, resolve := Except.ok "lc",
      api := APIResult.success [sampleItem] "t1" 0 },
    { now := 3600000000001, resolve := Except.ok "lc",
      api := APIResult.success [] "t2" 0 },
    { now := 3600000000002, resolve := Except.ok "lc",
      api := APIResult.success [sampleItem] "t3" 0 } ]

/-- Witness for C6 on the concrete three-poll trace: the second delivery
of ID `"a"` happens 3600000000002 ns after the first - beyond the
one-hour retention window. -/
theorem c6_no_duplicate_within_retention_witness :
    ((samplePolls.map (fun p => p.now)).Pairwise (fun a b => a ≤ b)) ∧
      runPolls freshClient samplePolls =
        [] ++ (0, [sampleComment]) :: [(3600000000001, [])] ++
          (3600000000002, [sampleComment]) :: [] ∧
      sampleComment ∈ [sampleComment] ∧ sampleComment.ID = sampleComment.ID ∧
      (0 + commentIDRetentionDuration < 3600000000002 ∧
        ∀ pr ∈ runPolls freshClient samplePolls,
          (pr.2.map (fun c => c.ID)).Nodup) :=
  ⟨by decide, by decide, by decide, rfl,
    c6_no_duplicate_within_retention freshClient samplePolls
      [] [(3600000000001, [])] [] 0 3600000000002 [sampleComment] [sampleComment]
      sampleComment sampleComment (by decide) (by decide) (by decide) (by decide) rfl⟩

/-- Witness for C5: a client with an active live chat receives the
`liveChatEnded` API error. -/
theorem c5_live_chat_ended_witness :
    (¬ ({ liveChatID := "chat1", nextPageToken := "tok",
          lastFetchedCommentIDs := fun _ => none } : ClientState).liveChatID = "") ∧
      (goContains "googleapi: Error 403: liveChatEnded" "liveChatEnded" = true ∨
        goContains "googleapi: Error 403: liveChatEnded" "live chat is inactive" = true) ∧
      ((fetchLiveChatMessages
          { liveChatID := "chat1", nextPageToken := "tok",
            lastFetchedCommentIDs := fun _ => none }
          (Except.ok "x") (APIResult.apiError "googleapi: Error 403: liveChatEnded")
          7).1.liveChatID = "" ∧
        (fetchLiveChatMessages
          { liveChatID := "chat1", nextPageToken := "tok",
            lastFetchedCommentIDs := fun _ => none }
          (Except.ok "x") (APIResult.apiError "googleapi: Error 403: liveChatEnded")
          7).1.nextPageToken = "" ∧
        (fetchLiveChatMessages
          { liveChatID := "chat1", nextPageToken := "tok",
            lastFetchedCommentIDs := fun _ => none }
          (Except.ok "x") (APIResult.apiError "googleapi: Error 403: liveChatEnded")
          7).2 = Except.error FetchErr.liveChatEnded ∧
        runLoopStep 5000000000
          (fetchLiveChatMessages
            { liveChatID := "chat1", nextPageToken := "tok",
              lastFetchedCommentIDs := fun _ => none }
            (Except.ok "x") (APIResult.apiError "googleapi: Error 403: liveChatEnded")
            7).2 = (rediscoveryWait, true)) :=
  ⟨by decide, Or.inl (by decide),
    c5_live_chat_ended
      { liveChatID := "chat1", nextPageToken := "tok",
        lastFetchedCommentIDs := fun _ => none }
      (Except.ok "x") "googleapi: Error 403: liveChatEnded" 7 5000000000
      (by decide) (Or.inl (by decide))⟩

/-- Witness for C10: a poll whose items include an empty-message item. -/
theorem c10_empty_messages_never_delivered_witness :
    (∀ c ∈ deliveredOf (fetchLiveChatMessages freshClient (Except.ok "x")
        (APIResult.success [emptyItem, sampleItem] "t" 0) 7).2,
      ¬ c.Message = "") ∧
      (∀ id,
        ¬ (fetchLiveChatMessages freshClient (Except.ok "x")
            (APIResult.success [emptyItem, sampleItem] "t" 0)
            7).1.lastFetchedCommentIDs id = none →
        ¬ freshClient.lastFetchedCommentIDs id = none ∨
          id ∈ (deliveredOf (fetchLiveChatMessages freshClient (Except.ok "x")
              (APIResult.success [emptyItem, sampleItem] "t" 0) 7).2).map
            (fun c => c.ID)) :=
  c10_empty_messages_never_delivered freshClient (Except.ok "x")
    (APIResult.success [emptyItem, sampleItem] "t" 0) 7

/-! ## Orchestrator poll retry and control loop (`src/unnamed/part_001`) -/

/-- Result of one `FetchLiveChatMessages` call as the `part_001` retry
loop sees it (that pipeline's client returns `([]Comment, error)`).  The
fetch is indexed by the attempt number to model a changing external
world. -/
inductive FetchOutcome
  | ok (comments : List Comment)
  | err (msg : String)
deriving DecidableEq

/-- The retry loop of `handleLiveChatPollingAndInput` (`part_001` lines
161-194), from attempt index `attempt`: call the fetch; on success stop;
on error, when the attempt is not the last, wait
`initialDelay * 2 ^ attempt` and retry.  Returns the number of attempts
made, the waits performed in order, and the final outcome (the `ok []`
fallthrough mirrors the loop body never running when
`maxRetries = 0` - `err` stays nil and `comments` stays nil). -/
def retryFetch (fetch : Nat → FetchOutcome) (initialDelay maxRetries attempt : Nat) :
    Nat × List Nat × FetchOutcome :=
  if attempt < maxRetries then
    match fetch attempt with
    | FetchOutcome.ok cs => (attempt + 1, [], FetchOutcome.ok cs)
    | FetchOutcome.err e =>
      if attempt < maxRetries - 1 then
        let out := retryFetch fetch initialDelay maxRetries (attempt + 1)
        (out.1, initialDelay * 2 ^ attempt :: out.2.1, out.2.2)
      else (attempt + 1, [], FetchOutcome.err e)
  else (attempt, [], FetchOutcome.ok [])
termination_by maxRetries - attempt
decreasing_by
  omega

/-- `maxRetries := 3` of `part_001:handleLiveChatPollingAndInput`. -/
def maxRetriesConst : Nat := 3

/-- `initialDelay := 1 * time.Second` in nanoseconds. -/
def initialDelayConst : Nat := 1000000000

/-- The fatal error sent to `errorChan` when the retry budget is
exhausted: `failed to fetch live chat messages after %d retries: %w`. -/
def escalatedError (maxRetries : Nat) (e : String) : String :=
  "failed to fetch live chat messages after " ++ toString maxRetries ++
    " retries: " ++ e

/-- One poll cycle of `part_001:handleLiveChatPollingAndInput` with the
code's constants: run the retry loop; a still-failing fetch is escalated
to `errorChan` as fatal (the handler then returns); success yields the
comments.  Returns the waits performed and the escalation or the
comments. -/
def pollCycleOutcome (fetch : Nat → FetchOutcome) :
    List Nat × (String ⊕ List Comment) :=
  let out := retryFetch fetch initialDelayConst maxRetriesConst 0
  (out.2.1,
    match out.2.2 with
    | FetchOutcome.err e => Sum.inl (escalatedError maxRetriesConst e)
    | FetchOutcome.ok cs => Sum.inr cs)

/-- An event consumed by the select loop of `part_001:Run`
(lines 60-94): a response from `responseChan`, an error from
`errorChan`, or context cancellation. -/
inductive ControlEvent
  | gotResponse (r : LowLatencyResponse)
  | gotError (e : String)
  | ctxCancelled

/-- The control loop's reaction: keep looping (having issued the given
posts), return from `Run` with an error, or crash on the unrecovered
sanitizer panic. -/
inductive ControlAction
  | proceed (posts : List (List Char))
  | exitWith (e : String)
  | panicked
deriving DecidableEq

/-- The posts issued for one received response by `part_001:Run`
(lines 62-83): an empty raw `ResponseText` issues nothing; a nonempty one
calls `sanitizeMessage`, which panics before any post can be issued (had
it returned a value, that value would be posted whenever a YouTube client
is configured).  The list is the posts issued; the Boolean is `true` when
the iteration completes normally and `false` when it dies in the
sanitizer. -/
def postsForResponse (hasClient : Bool) (r : LowLatencyResponse) :
    List (List Char) × Bool :=
  if ¬ r.ResponseText = "" then
    match sanitizeMessagePart001 r.ResponseText.data with
    | some safeText => ((if hasClient then [safeText] else []), true)
    | none => ([], false)
  else ([], true)

/-- One select iteration of `part_001:Run`: a response leads to posts and
the loop continues - unless the iteration died in the sanitizer; an
error from `errorChan` makes `Run` return that error; cancellation makes
it return the context's error. -/
def runControlStep (hasClient : Bool) : ControlEvent → ControlAction
  | ControlEvent.gotResponse r =>
    let out := postsForResponse hasClient r
    if out.2 then ControlAction.proceed out.1 else ControlAction.panicked
  | ControlEvent.gotError e => ControlAction.exitWith e
  | ControlEvent.ctxCancelled => ControlAction.exitWith "context canceled"

/-- Behaviour of the retry loop under a persistently failing fetch, from
any attempt index. -/
theorem retryFetch_persistent (fetch : Nat → FetchOutcome) (e : Nat → String)
    (d mr : Nat) (hf : ∀ k, fetch k = FetchOutcome.err (e k)) :
    ∀ n a, mr - a = n → a < mr →
      retryFetch fetch d mr a =
        (mr, (List.range' a (mr - 1 - a)).map (fun k => d * 2 ^ k),
          FetchOutcome.err (e (mr - 1))) := by
  intro n
  induction n with
  | zero =>
    intro a hn ha
    omega
  | succ n ih =>
    intro a hn ha
    rw [retryFetch, if_pos ha, hf a]
    dsimp only
    by_cases hlt : a < mr - 1
    · rw [if_pos hlt]
      have hrec := ih (a + 1) (by omega) (by omega)
      rw [hrec]
      have hrange : mr - 1 - a = (mr - 1 - (a + 1)) + 1 := by omega
      rw [hrange, List.range'_succ]
      simp
    · rw [if_neg hlt]
      have ha1 : a = mr - 1 := by omega
      have hr0 : mr - 1 - a = 0 := by omega
      rw [hr0, ha1]
      simp only [List.range'_zero, List.map_nil]
      have : mr - 1 + 1 = mr := by omega
      rw [this]

/-- **C4** (corrected): the claimed retry behaviour is real but lives
only in the `part_001` pipeline: there a persistently failing poll is
attempted exactly `maxRetries` times, with a wait of
`initialBackoff * 2 ^ k` after attempt `k` (0-indexed) for every
non-final attempt (first conjunct: the loop for arbitrary
`maxRetries ≥ 1` and backoff; second: the `part_001` poll cycle with the
code's constants `maxRetries = 3`, `initialDelay = 1s`), the last
failure is escalated to `errorChan` as fatal, and the control loop of
`Run` returns that error (third conjunct).  The cited
`lowlatency.go:runLoop`, by contrast, never retries, backs off or
escalates: a transient (non-`ErrLiveChatEnded`) fetch error keeps the
current delay and the loop just keeps running (fourth conjunct), so any
number of consecutive transient failures - however far beyond
`maxRetries` - leaves it polling at the unchanged interval with `Run`
never returning (fifth conjunct). -/
theorem c4_retry_backoff_escalation (fetch : Nat → FetchOutcome)
    (e : Nat → String) (d mr : Nat) (hasClient : Bool) (hmr : 1 ≤ mr)
    (hf : ∀ k, fetch k = FetchOutcome.err (e k)) :
    retryFetch fetch d mr 0 =
        (mr, (List.range (mr - 1)).map (fun k => d * 2 ^ k),
          FetchOutcome.err (e (mr - 1))) ∧
      pollCycleOutcome fetch =
        ((List.range (maxRetriesConst - 1)).map
            (fun k => initialDelayConst * 2 ^ k),
          Sum.inl (escalatedError maxRetriesConst (e (maxRetriesConst - 1)))) ∧
      runControlStep hasClient
          (ControlEvent.gotError (escalatedError maxRetriesConst (e (maxRetriesConst - 1)))) =
        ControlAction.exitWith (escalatedError maxRetriesConst (e (maxRetriesConst - 1))) ∧
      (∀ cur msg, runLoopStep cur (Except.error (FetchErr.other msg)) = (cur, true)) ∧
      (∀ cur errs,
        (∀ r ∈ errs, ∃ msg, r = Except.error (FetchErr.other msg)) →
        runLoopFold cur errs = (cur, true)) := by
  have hgen := retryFetch_persistent fetch e d mr hf (mr - 0) 0 rfl (by omega)
  have hconst := retryFetch_persistent fetch e initialDelayConst maxRetriesConst hf
    (maxRetriesConst - 0) 0 rfl (by decide)
  refine ⟨?_, ?_, rfl, fun cur msg => rfl, ?_⟩
  · rw [hgen]
    rw [List.range_eq_range']
    simp
  · unfold pollCycleOutcome
    rw [hconst]
    rw [List.range_eq_range']
    simp
  · intro cur errs hall
    induction errs generalizing cur with
    | nil => rfl
    | cons r rs ih =>
      obtain ⟨msg, hr⟩ := hall r (List.mem_cons_self r rs)
      subst hr
      rw [runLoopFold]
      simp only [runLoopStep]
      exact ih cur (fun q hq => hall q (List.mem_cons_of_mem _ hq))

/-- Witness for C4: the always-failing fetch, `maxRetries = 3` and a
backoff base of 7 ns. -/
theorem c4_retry_backoff_escalation_witness :
    (1 ≤ 3 ∧ ∀ k : Nat, (fun _ : Nat => FetchOutcome.err "boom") k =
        FetchOutcome.err ((fun _ : Nat => "boom") k)) ∧
      (retryFetch (fun _ : Nat => FetchOutcome.err "boom") 7 3 0 =
          (3, (List.range 2).map (fun k => 7 * 2 ^ k),
            FetchOutcome.err "boom") ∧
        pollCycleOutcome (fun _ : Nat => FetchOutcome.err "boom") =
          ((List.range (maxRetriesConst - 1)).map
              (fun k => initialDelayConst * 2 ^ k),
            Sum.inl (escalatedError maxRetriesConst "boom")) ∧
        runControlStep true (ControlEvent.gotError (escalatedError maxRetriesConst "boom")) =
          ControlAction.exitWith (escalatedError maxRetriesConst "boom") ∧
        (∀ cur msg, runLoopStep cur (Except.error (FetchErr.other msg)) = (cur, true)) ∧
        (∀ cur errs,
          (∀ r ∈ errs, ∃ msg, r = Except.error (FetchErr.other msg)) →
          runLoopFold cur errs = (cur, true))) :=
  ⟨⟨by decide, fun k => rfl⟩,
    c4_retry_backoff_escalation (fun _ : Nat => FetchOutcome.err "boom")
      (fun _ : Nat => "boom") 7 3 true (by decide) (fun k => rfl)⟩

/-- **C4 counterexample**: in the cited `lowlatency.go:runLoop`, ten
consecutive transient fetch failures - far beyond the claimed
`maxRetries = 3` - leave the loop still running at the unchanged poll
delay: no retry bound, no backoff sequence, no escalated fatal error,
and `Run` has not returned. -/
theorem c4_counterexample_lowlatency_no_escalation :
    runLoopFold 7
        (List.replicate 10 (Except.error (FetchErr.other "network blip"))) =
      (7, true) := rfl

/-- Per-comment posting decision of `FetchAndProcessComments`
(`src/internal/apis/youtube_client.go` lines 234-256): the AI response is
sanitized; an empty sanitized response is suppressed with no post;
otherwise it is posted unless dry-run is set. -/
def apisPostDecision (aiResponse : List Char) (dryRun : Bool) :
    List (List Char) :=
  let sanitizedResponse := sanitizeMessageApis aiResponse
  if sanitizedResponse = [] then []
  else if dryRun then [] else [sanitizedResponse]

/-- **C8**: a response whose text sanitizes to the empty string yields no
post.  In the `apis` orchestrator (`FetchAndProcessComments`) the empty
sanitized response is explicitly suppressed before posting (first
conjunct).  And the `part_001` pipeline never issues any post for any
response at all: an empty raw text short-circuits before the post, and a
nonempty raw text panics inside `sanitizeMessage` before `PostComment`
can be reached (second conjunct) - so in particular no post is issued
there for a response whose text would sanitize to empty. -/
theorem c8_empty_sanitized_never_posted (raw : List Char) (dryRun : Bool)
    (hasClient : Bool) (r : LowLatencyResponse) :
    (sanitizeMessageApis raw = [] → apisPostDecision raw dryRun = []) ∧
      (postsForResponse hasClient r).1 = [] := by
  constructor
  · intro h
    unfold apisPostDecision
    simp [h]
  · unfold postsForResponse
    by_cases hr : ¬ r.ResponseText = ""
    · rw [if_pos hr]
      simp only [sanitizeMessagePart001]
    · rw [if_neg hr]

/-- Witness for C8, at a code-block-only response (which the `apis`
sanitizer sends to empty) and a nonempty `part_001` response. -/
theorem c8_empty_sanitized_never_posted_witness :
    sanitizeMessageApis ("```x```".data) = [] ∧
      ((sanitizeMessageApis ("```x```".data) = [] →
          apisPostDecision ("```x```".data) false = []) ∧
        (postsForResponse true { ResponseText := "ok", Done := true }).1 = []) :=
  ⟨by simp [sanitizeMessageApis, removeCodeBlocksDotall, matchCodeBlockDotall,
      findFence, fence, goTrimSpace, goIsSpace],
    c8_empty_sanitized_never_posted ("```x```".data) false true
      { ResponseText := "ok", Done := true }⟩

end PrompterLive
